import Mathlib

/-!
Shallow embedding of the Book Search desktop application
(winapp/ConnectedApp): the shared state store (CommonObject.h), the
catalog client (DownloadThread.cpp), the presentation-loop mutations
(DrawThread.cpp) and the persistence I/O (ConnectedApp.cpp), together
with proofs of the specified properties.

Machine integers are modelled as `Int` (no arithmetic in the program
comes near the 32-bit bound), C++ strings as `String`,
`std::vector` as `List`, `std::unordered_map` as an association list
with unique keys, and JSON values (the external nlohmann library's
trees) as an inductive `Json` type.  Exceptions thrown by JSON field
conversions are modelled with `Except Unit`.
-/

/-- `BookNote` from CommonObject.h: note content plus textual date. -/
structure BookNote where
  note : String
  date : String
deriving Repr, DecidableEq, Inhabited

/-- `Book` from CommonObject.h with the source's default member values.
`notes` models the `std::unordered_map<std::string, BookNote>` member as
an association list. -/
structure Book where
  key : String := ""
  title : String := ""
  author_names : List String := []
  first_publish_year : Int := 0
  edition_count : Int := 0
  is_favorite : Bool := false
  language : String := ""
  subject : String := ""
  want_to_read_count : Int := 0
  currently_reading_count : Int := 0
  already_read_count : Int := 0
  notes : List (String × BookNote) := []
deriving Repr, DecidableEq, Inhabited

/-- `CommonObjects` from CommonObject.h with the source's initial values. -/
structure CommonObjects where
  exit_flag : Bool := false
  start_download : Bool := false
  data_ready : Bool := false
  search_query : String := ""
  search_type : String := "title"
  results_per_page : Int := 10
  current_page : Int := 1
  books : List Book := []
  favorite_books : List String := []
  saved_notes : List (String × BookNote) := []
deriving Repr, DecidableEq, Inhabited

/-- JSON values as produced by the external JSON library.  Numbers are
modelled as `Int`: the program only ever extracts integer fields. -/
inductive Json where
  | null : Json
  | bool (b : Bool) : Json
  | num (n : Int) : Json
  | str (s : String) : Json
  | arr (elems : List Json) : Json
  | obj (fields : List (String × Json)) : Json
deriving Repr, Inhabited

/-- `j.contains(k)` of the JSON library: true only on an object that has
the member `k`. -/
def Json.containsKey : Json → String → Bool
  | .obj fields, k => fields.any (fun f => f.1 == k)
  | _, _ => false

/-- `j[k]` on a (const) JSON object; only ever evaluated after a
`containsKey` check in the embedded code, `null` otherwise. -/
def Json.getKey : Json → String → Json
  | .obj fields, k => ((fields.find? (fun f => f.1 == k)).map Prod.snd).getD .null
  | _, _ => .null

/-- `j.get<std::string>()`: returns the string, throws on any other
JSON type (in particular on `null`). -/
def Json.getStr : Json → Except Unit String
  | .str s => .ok s
  | _ => .error ()

/-- `j.get<int>()`: returns the number, throws on any other JSON type. -/
def Json.getInt : Json → Except Unit Int
  | .num n => .ok n
  | _ => .error ()

/-- `j.get<std::vector<std::string>>()`: throws unless `j` is an array
of strings. -/
def Json.getStrList : Json → Except Unit (List String)
  | .arr elems => elems.mapM Json.getStr
  | _ => .error ()

/-- `j.is_array()`. -/
def Json.isArr : Json → Bool
  | .arr _ => true
  | _ => false

/-- Range-`for` over a JSON value in the JSON library: an array yields
its elements, an object its member values, `null` an empty range, and
any primitive a single-element range holding the value itself. -/
def Json.iterElems : Json → List Json
  | .arr elems => elems
  | .obj fields => fields.map Prod.snd
  | .null => []
  | j => [j]

/-- Association-list lookup standing for `unordered_map::find`. -/
def notesFind (m : List (String × BookNote)) (k : String) : Option BookNote :=
  (m.find? (fun e => e.1 == k)).map Prod.snd

/-- `unordered_map` indexed assignment `m[k] = v`: overwrite the
binding when the key is present (keys are unique in a map, so at most
one binding matches), otherwise add it. -/
def notesInsert : List (String × BookNote) → String → BookNote →
    List (String × BookNote)
  | [], k, v => [(k, v)]
  | e :: rest, k, v =>
    if e.1 == k then (k, v) :: rest else e :: notesInsert rest k v

/-! ## Catalog client (DownloadThread.cpp) -/

/-- The character class accepted verbatim by `url_encode`
(`isalnum(c) || c == '-' || c == '_' || c == '.' || c == '~'`). -/
def isUnreservedChar (c : Char) : Bool :=
  c.isAlphanum || c == '-' || c == '_' || c == '.' || c == '~'

/-- `url_encode` from DownloadThread.cpp.  For a character outside the
unreserved class the source appends `'%' + std::string(2, '0') + c`,
i.e. the three characters `%00` followed by the character itself. -/
def url_encode (value : String) : String :=
  value.data.foldl
    (fun result c =>
      if isUnreservedChar c then result.push c
      else (result ++ "%00").push c)
    ""

/-- The fixed `fields=` selection list appended to every search path. -/
def fieldsList : String :=
  "key,title,author_name,first_publish_year,edition_count,cover_i,language,subject,want_to_read_count,currently_reading_count,already_read_count"

/-- The request path built in `DownloadThread::operator()` from the
shared search parameters. -/
def buildPath (c : CommonObjects) : String :=
  "/search.json?"
    ++ (if c.search_type == "title" then "title=" else "author=")
    ++ url_encode c.search_query
    ++ "&limit=" ++ toString c.results_per_page
    ++ "&page=" ++ toString c.current_page
    ++ "&fields=" ++ fieldsList

/-- Result of `cli.Get`: `none` models both the absence of a response
and a transport exception thrown before any shared state is touched;
`body = none` models a body on which `nlohmann::json::parse` throws. -/
structure HttpResponse where
  status : Int
  body : Option Json
deriving Repr, Inhabited

/-- The comma-and-space join of a JSON array's elements
(the `language` / `subject` loops); each element is read with
`get<std::string>()` and may throw. -/
def joinCommaStrs (elems : List Json) : Except Unit String :=
  elems.foldlM
    (fun acc j => do
      let s ← j.getStr
      pure ((if acc.isEmpty then acc else acc ++ ", ") ++ s))
    ""

/-- `if (doc.contains(k)) book.f = doc[k].get<std::vector<std::string>>()`
with the member's default `[]` otherwise. -/
def optStrList (doc : Json) (k : String) : Except Unit (List String) :=
  if doc.containsKey k then (doc.getKey k).getStrList else pure []

/-- `if (doc.contains(k)) book.f = doc[k].get<int>()` with the member's
default `0` otherwise. -/
def optInt (doc : Json) (k : String) : Except Unit Int :=
  if doc.containsKey k then (doc.getKey k).getInt else pure 0

/-- `if (doc.contains(k) && doc[k].is_array())` followed by the
comma-join loop, with the member's default `""` otherwise. -/
def optJoinArr (doc : Json) (k : String) : Except Unit String :=
  if doc.containsKey k && (doc.getKey k).isArr then
    joinCommaStrs (doc.getKey k).iterElems
  else pure ""

/-- Conversion of one `docs` element into a `Book`
(DownloadThread.cpp lines 74–121).  `.ok none`: the element lacks
`key` or `title` and is skipped; `.error ()`: a field conversion threw
a JSON exception; `.ok (some b)`: the element is accepted. -/
def convertDoc (favorites : List String) (saved : List (String × BookNote))
    (doc : Json) : Except Unit (Option Book) :=
  if doc.containsKey "key" && doc.containsKey "title" then do
    let key ← (doc.getKey "key").getStr
    let title ← (doc.getKey "title").getStr
    let authors ← optStrList doc "author_name"
    let fpy ← optInt doc "first_publish_year"
    let ec ← optInt doc "edition_count"
    let lang ← optJoinArr doc "language"
    let subj ← optJoinArr doc "subject"
    let wtr ← optInt doc "want_to_read_count"
    let cr ← optInt doc "currently_reading_count"
    let ar ← optInt doc "already_read_count"
    pure (some
      { key := key, title := title, author_names := authors
        first_publish_year := fpy, edition_count := ec
        is_favorite := favorites.contains key
        language := lang, subject := subj
        want_to_read_count := wtr, currently_reading_count := cr
        already_read_count := ar
        notes :=
          match notesFind saved key with
          | some n => notesInsert [] key n
          | none => [] })
  else
    pure none

/-- The `docs` loop: converts elements in order, appending accepted
books to the accumulator.  The second component is `false` when a
conversion threw — the loop is then abandoned (the `catch` at the
response level) with the partially built list as first component. -/
def processDocs (favorites : List String) (saved : List (String × BookNote)) :
    List Json → List Book → List Book × Bool
  | [], acc => (acc, true)
  | d :: ds, acc =>
    match convertDoc favorites saved d with
    | .error _ => (acc, false)
    | .ok none => processDocs favorites saved ds acc
    | .ok (some b) => processDocs favorites saved ds (acc ++ [b])

/-- One handling of an observed `start_download` in
`DownloadThread::operator()` (lines 46–139): the body of the `if`,
given the outcome `res` of the GET request.  Ends with the
unconditional `common.start_download = false`. -/
def fetchStep (c : CommonObjects) (res : Option HttpResponse) : CommonObjects :=
  let c' :=
    match res with
    | none => c
    | some r =>
      if r.status == 200 then
        match r.body with
        | none => c
        | some j =>
          let cleared := { c with books := [] }
          if j.containsKey "docs" then
            let (bs, ok) :=
              processDocs c.favorite_books c.saved_notes (j.getKey "docs").iterElems []
            if ok then { cleared with books := bs, data_ready := true }
            else { cleared with books := bs }
          else { cleared with data_ready := true }
      else c
  { c' with start_download := false }

/-- One iteration of the download thread's poll loop: the fetch body
runs only when `start_download` is observed set. -/
def pollIteration (c : CommonObjects) (res : Option HttpResponse) : CommonObjects :=
  if c.start_download then fetchStep c res else c

/-! ## Presentation-loop mutations (DrawThread.cpp) -/

/-- The favorite checkbox on the results-table row `i`
(DrawThread.cpp lines 281–290).  ImGui's `Checkbox` flips the book's
`is_favorite` member; the handler then pushes the key onto
`favorite_books` or erases its first occurrence via `find` + `erase`. -/
def toggleFavorite (c : CommonObjects) (i : Nat) : CommonObjects :=
  match c.books[i]? with
  | none => c
  | some b =>
    let b' := { b with is_favorite := !b.is_favorite }
    let books' := c.books.set i b'
    if b'.is_favorite then
      { c with books := books', favorite_books := c.favorite_books ++ [b.key] }
    else
      { c with books := books', favorite_books := c.favorite_books.erase b.key }

/-- The `for (auto& book : common->books) { if (book.key == key) { book.is_favorite = false; break; } }`
loop of the favorites-view removal: clears the flag on the first book
whose key matches, leaving the rest untouched. -/
def clearFlagFirst : List Book → String → List Book
  | [], _ => []
  | b :: bs, k =>
    if b.key == k then { b with is_favorite := false } :: bs
    else b :: clearFlagFirst bs k

/-- The Remove button in the favorites view (DrawThread.cpp lines
211–227), pressed on entry `i` of the local display list.  If the
entry's key is found in `favorite_books` it is erased there, the flag
is cleared on the matching book of the main list, and the entry is
erased from the display list; otherwise nothing changes. -/
def removeFavorite (c : CommonObjects) (display : List Book) (i : Nat) :
    CommonObjects × List Book :=
  match display[i]? with
  | none => (c, display)
  | some entry =>
    if c.favorite_books.contains entry.key then
      ({ c with favorite_books := c.favorite_books.erase entry.key
                books := clearFlagFirst c.books entry.key },
       display.eraseIdx i)
    else (c, display)

/-- Editing the note text of the book at row `i` (DrawThread.cpp lines
313–323): a `BookNote` with the typed text and a timestamp string is
stored both in the book's own `notes` overlay and in `saved_notes`. -/
def editNote (c : CommonObjects) (i : Nat) (text date : String) : CommonObjects :=
  match c.books[i]? with
  | none => c
  | some b =>
    let n : BookNote := { note := text, date := date }
    let b' := { b with notes := notesInsert b.notes b.key n }
    { c with books := c.books.set i b'
             saved_notes := notesInsert c.saved_notes b.key n }

/-- Pressing the Notes button on row `i` when its note buffer does not
exist yet (DrawThread.cpp lines 293–308): when the book has no overlay
entry but `saved_notes` has one, the saved note is copied into the
book's overlay; otherwise the shared state is unchanged. -/
def openNotes (c : CommonObjects) (i : Nat) : CommonObjects :=
  match c.books[i]? with
  | none => c
  | some b =>
    match notesFind b.notes b.key with
    | some _ => c
    | none =>
      match notesFind c.saved_notes b.key with
      | some n =>
        { c with books := c.books.set i { b with notes := notesInsert b.notes b.key n } }
      | none => c

/-- Submitting a search (Enter in the input field or the Search
button, DrawThread.cpp lines 55–59 and 75–78). -/
def submitSearch (c : CommonObjects) (q : String) : CommonObjects :=
  { c with search_query := q, start_download := true }

/-- The search-type combo (DrawThread.cpp lines 63–68). -/
def setSearchType (c : CommonObjects) (t : String) : CommonObjects :=
  { c with search_type := t }

/-- The results-per-page slider (DrawThread.cpp line 98). -/
def setResultsPerPage (c : CommonObjects) (n : Int) : CommonObjects :=
  { c with results_per_page := n }

/-- `common.exit_flag = true` after `GuiMain` returns (DrawThread.cpp
line 382). -/
def setExit (c : CommonObjects) : CommonObjects :=
  { c with exit_flag := true }

/-- Every mutation of the shared state store performed by the program
after start-up: one download-thread poll iteration (with the GET
outcome it observes), and the presentation-loop handlers. -/
inductive Mutation where
  | fetch (res : Option HttpResponse)
  | submit (q : String)
  | chooseType (t : String)
  | choosePerPage (n : Int)
  | toggleFav (i : Nat)
  | removeFav (display : List Book) (i : Nat)
  | noteEdit (i : Nat) (text date : String)
  | noteOpen (i : Nat)
  | quit

/-- Effect of a mutation on the shared state store. -/
def applyMutation (c : CommonObjects) : Mutation → CommonObjects
  | .fetch res => pollIteration c res
  | .submit q => submitSearch c q
  | .chooseType t => setSearchType c t
  | .choosePerPage n => setResultsPerPage c n
  | .toggleFav i => toggleFavorite c i
  | .removeFav display i => (removeFavorite c display i).1
  | .noteEdit i text date => editNote c i text date
  | .noteOpen i => openNotes c i
  | .quit => setExit c

/-! ## Persistence I/O (ConnectedApp.cpp) -/

/-- The favorites save loop (ConnectedApp.cpp lines 94–96): each key is
written followed by a newline, in list order, into the truncated file. -/
def saveFavorites : List String → String
  | [] => ""
  | k :: rest => k ++ "\n" ++ saveFavorites rest

/-- `std::getline` applied repeatedly to a character stream: each call
consumes up to and including the next newline and yields the consumed
characters; it fails (ending the loop) only at end of stream with
nothing extracted. -/
def getlinesGo : List Char → List Char → List String
  | [], acc => [String.mk acc.reverse]
  | ch :: rest, acc =>
    if ch = '\n' then
      String.mk acc.reverse ::
        (match rest with
         | [] => []
         | r :: rs => getlinesGo (r :: rs) [])
    else getlinesGo rest (ch :: acc)

/-- All lines of a file as read by the `while (std::getline ...)` loop. -/
def getlines (s : String) : List String :=
  match s.toList with
  | [] => []
  | ch :: rest => getlinesGo (ch :: rest) []

/-- The favorites load loop (ConnectedApp.cpp lines 52–56): every
non-empty line becomes a favorite key, in file order. -/
def loadFavorites (content : String) : List String :=
  (getlines content).filter (fun line => line ≠ "")

/-! ## Notes persistence (ConnectedApp.cpp)

The JSON text layer (`dump(4)` / `operator>>`) belongs to the external
JSON library, whose encode/decode round-trip on its own trees is its
contract; the notes file is therefore modelled at the level of the
JSON tree written to and read back from `data/notes.json`. -/

/-- The JSON value written for one note:
`{{"note", note.note}, {"date", note.date}}`.  The library's object is
an ordered `std::map`, so its members sit in key order. -/
def noteToJson (n : BookNote) : Json :=
  .obj [("date", .str n.date), ("note", .str n.note)]

/-- Member lookup in a JSON object's field list. -/
def fieldsFind (fs : List (String × Json)) (k : String) : Option Json :=
  (fs.find? (fun f => f.1 == k)).map Prod.snd

/-- `notes_json[key] = v` on the library's object: insert-or-assign of
the member `key`.  (The library's object keeps its members ordered by
key; the model keeps them in insertion order, which carries the same
key-to-value mapping — the only aspect the program's `items()` /
`value()` reads observe.) -/
def objInsert (k : String) (v : Json) : List (String × Json) → List (String × Json)
  | [] => [(k, v)]
  | e :: rest =>
    if e.1 == k then (k, v) :: rest else e :: objInsert k v rest

/-- The notes save loop (ConnectedApp.cpp lines 104–110): each entry of
`saved_notes` is assigned into a fresh JSON object. -/
def saveNotes (notes : List (String × BookNote)) : Json :=
  .obj (notes.foldl (fun fs e => objInsert e.1 (noteToJson e.2) fs) [])

/-- `v.value(k, dflt)` for a string field: throws unless `v` is an
object; returns the default when the member is missing; `get<string>`
(which throws on a non-string) when present. -/
def Json.valueStr : Json → String → String → Except Unit String
  | .obj fields, k, dflt =>
    match fieldsFind fields k with
    | none => .ok dflt
    | some v => v.getStr
  | _, _, _ => .error ()

/-- Decoding of one member of the notes file
(ConnectedApp.cpp lines 70–72). -/
def decodeNoteVal (v : Json) : Except Unit BookNote := do
  let note ← v.valueStr "note" ""
  let date ← v.valueStr "date" ""
  pure { note := note, date := date }

/-- `json.items()` of the library, as iterated by the load loop: an
object yields its members, an array index/value pairs, null an empty
range, a primitive a single pair with an empty key. -/
def Json.itemsList : Json → List (String × Json)
  | .obj fields => fields
  | .arr elems => ((List.range elems.length).zip elems).map (fun e => (toString e.1, e.2))
  | .null => []
  | j => [("", j)]

/-- The notes load loop (ConnectedApp.cpp lines 69–74): members are
decoded in order and assigned into `saved_notes`; a thrown conversion
abandons the loop (the `catch` at line 76), keeping the entries
inserted so far. -/
def loadNotesGo : List (String × Json) → List (String × BookNote) → List (String × BookNote)
  | [], acc => acc
  | (k, v) :: rest, acc =>
    match decodeNoteVal v with
    | .error _ => acc
    | .ok bn => loadNotesGo rest (notesInsert acc k bn)

/-- Loading the parsed notes file into the notes mapping. -/
def loadNotes (j : Json) : List (String × BookNote) :=
  loadNotesGo j.itemsList []

/-! ## Predicates and spec-side definitions used by the claims -/

/-- A fetch outcome on which the body of `DownloadThread::operator()`
never reaches `common.books.clear()`: no response (or a transport
exception), a non-200 status, or a body on which the JSON parse
throws. -/
def softFail : Option HttpResponse → Bool
  | none => true
  | some r => r.status != 200 || r.body.isNone

/-- Whether the fetch body reaches `common.data_ready = true`
(line 124): a 200 response whose body parses and whose `docs` elements
all convert without a thrown exception. -/
def fetchSetsReady (c : CommonObjects) (res : Option HttpResponse) : Bool :=
  match res with
  | none => false
  | some r =>
    r.status == 200 &&
      (match r.body with
       | none => false
       | some j =>
         if j.containsKey "docs" then
           (processDocs c.favorite_books c.saved_notes (j.getKey "docs").iterElems []).2
         else true)

/-- The favorites/result-list synchronisation invariant of the spec's
data model: a book in the current result list is flagged favorite
exactly when its key is in the favorites list. -/
def favInvariant (c : CommonObjects) : Prop :=
  ∀ b ∈ c.books, b.is_favorite = c.favorite_books.contains b.key

instance favInvariantDecidable (c : CommonObjects) : Decidable (favInvariant c) :=
  inferInstanceAs
    (Decidable (∀ b ∈ c.books, b.is_favorite = c.favorite_books.contains b.key))

/-- The result list carries pairwise-distinct keys. -/
def booksKeysNodup (bs : List Book) : Prop :=
  (bs.map Book.key).Nodup

instance booksKeysNodupDecidable (bs : List Book) : Decidable (booksKeysNodup bs) :=
  inferInstanceAs (Decidable (bs.map Book.key).Nodup)

/-- An uppercase hexadecimal digit. -/
def hexDigit (n : Nat) : Char :=
  if n < 10 then Char.ofNat (48 + n) else Char.ofNat (55 + n)

/-- Modelled from the spec: the percent-encoded equivalent of a
character — each character outside the unreserved set is replaced by
`%` followed by the two hexadecimal digits of its code, unreserved
characters are unchanged.  Stated only to compare with the source's
`url_encode`. -/
def specPercentEncodeChar (c : Char) : String :=
  if isUnreservedChar c then String.singleton c
  else "%" ++ String.singleton (hexDigit (c.toNat / 16 % 16))
       ++ String.singleton (hexDigit (c.toNat % 16))

/-- Modelled from the spec: URL-encoding of a whole string,
character by character. -/
def specUrlEncode (s : String) : String :=
  String.join (s.toList.map specPercentEncodeChar)

/-- What the source's `url_encode` actually does to one character:
unreserved characters are kept, every other character becomes the
three characters `%00` followed by the character itself. -/
def encodeChar (c : Char) : String :=
  if isUnreservedChar c then String.singleton c
  else "%00" ++ String.singleton c

/-! ## Concrete scenario inputs -/

/-- A well-formed `docs` element. -/
def dGood : Json := .obj [("key", .str "/works/OL1W"), ("title", .str "Dune")]

/-- A `docs` element whose `key` member is present but null:
`doc["key"].get<std::string>()` throws on it. -/
def dBad : Json := .obj [("key", .null), ("title", .str "X")]

/-- A parsed 200 body whose second record throws during conversion. -/
def bodyPartial : Json := .obj [("docs", .arr [dGood, dBad])]

/-- The corresponding HTTP response. -/
def respPartial : HttpResponse := ⟨200, some bodyPartial⟩

/-- A store holding one previously fetched book, with a download
request pending. -/
def cPrev : CommonObjects :=
  { books := [{ key := "old", title := "Old" }], start_download := true }

/-- The store of the "dune" scenario: query `dune`, type `title`,
limit 10, page 1, favorites containing `/works/OL1W`. -/
def cDune : CommonObjects :=
  { search_query := "dune", search_type := "title", results_per_page := 10,
    current_page := 1, start_download := true,
    favorite_books := ["/works/OL1W"] }

/-- The "dune" scenario response: one `docs` entry. -/
def respDune : HttpResponse := ⟨200, some (.obj [("docs", .arr [dGood])])⟩

/-- A 200 response whose `docs` array holds the same record twice. -/
def respDup : HttpResponse := ⟨200, some (.obj [("docs", .arr [dGood, dGood])])⟩

/-- A store holding one favorited book, flags in sync. -/
def cToggle : CommonObjects :=
  { books := [{ key := "k", title := "t", is_favorite := true }],
    favorite_books := ["k"] }

/-- The store as built by `main` before any user action. -/
def initialCommon : CommonObjects := {}

/-! ## Basic facts about the fetch body -/

theorem fetchStep_start_download (c : CommonObjects) (res : Option HttpResponse) :
    (fetchStep c res).start_download = false := rfl

theorem fetchStep_books_of_softFail (c : CommonObjects) (res : Option HttpResponse)
    (h : softFail res = true) : (fetchStep c res).books = c.books := by
  cases res with
  | none => rfl
  | some r =>
    simp only [softFail, Bool.or_eq_true, bne_iff_ne, ne_eq,
      Option.isNone_iff_eq_none] at h
    rcases h with h | h
    · have hs : (r.status == 200) = false := by simpa using h
      simp [fetchStep, hs]
    · cases hs : (r.status == 200) <;> simp [fetchStep, hs, h]

theorem fetchStep_books_parsed (c : CommonObjects) (r : HttpResponse) (j : Json)
    (hs : r.status = 200) (hb : r.body = some j) (hd : j.containsKey "docs" = true) :
    (fetchStep c (some r)).books =
      (processDocs c.favorite_books c.saved_notes (j.getKey "docs").iterElems []).1 := by
  rcases hp : processDocs c.favorite_books c.saved_notes (j.getKey "docs").iterElems []
    with ⟨bs, ok⟩
  cases ok <;> simp [fetchStep, hs, hb, hd, hp]

theorem fetchStep_favorites (c : CommonObjects) (res : Option HttpResponse) :
    (fetchStep c res).favorite_books = c.favorite_books := by
  cases res with
  | none => rfl
  | some r =>
    cases hs : (r.status == 200) with
    | false => simp [fetchStep, hs]
    | true =>
      cases hb : r.body with
      | none => simp [fetchStep, hs, hb]
      | some j =>
        cases hd : j.containsKey "docs" with
        | false => simp [fetchStep, hs, hb, hd]
        | true =>
          rcases hp : processDocs c.favorite_books c.saved_notes
            (j.getKey "docs").iterElems [] with ⟨bs, ok⟩
          cases ok <;> simp [fetchStep, hs, hb, hd, hp]

theorem fetchStep_data_ready (c : CommonObjects) (res : Option HttpResponse) :
    (fetchStep c res).data_ready = (c.data_ready || fetchSetsReady c res) := by
  cases res with
  | none => simp [fetchStep, fetchSetsReady]
  | some r =>
    cases hs : (r.status == 200) with
    | false => simp [fetchStep, fetchSetsReady, hs]
    | true =>
      cases hb : r.body with
      | none => simp [fetchStep, fetchSetsReady, hs, hb]
      | some j =>
        cases hd : j.containsKey "docs" with
        | false => simp [fetchStep, fetchSetsReady, hs, hb, hd]
        | true =>
          rcases hp : processDocs c.favorite_books c.saved_notes
            (j.getKey "docs").iterElems [] with ⟨bs, ok⟩
          cases ok <;> simp [fetchStep, fetchSetsReady, hs, hb, hd, hp]

/-! ## Facts about record conversion -/

theorem exceptBind_ok {α β : Type} {e : Except Unit α} {f : α → Except Unit β} {b : β}
    (h : (e >>= f) = .ok b) : ∃ a, e = .ok a ∧ f a = .ok b := by
  cases e with
  | error u => simp [Bind.bind, Except.bind] at h
  | ok a => exact ⟨a, rfl, by simpa [Bind.bind, Except.bind] using h⟩

theorem convertDoc_ok_some {favs : List String} {saved : List (String × BookNote)}
    {d : Json} {b : Book} (h : convertDoc favs saved d = .ok (some b)) :
    d.containsKey "key" = true ∧ d.containsKey "title" = true ∧
    d.getKey "key" = .str b.key ∧ d.getKey "title" = .str b.title ∧
    b.is_favorite = favs.contains b.key := by
  by_cases hc : (d.containsKey "key" && d.containsKey "title") = true
  · simp only [convertDoc, hc, if_true] at h
    obtain ⟨key, hk, h⟩ := exceptBind_ok h
    obtain ⟨title, ht, h⟩ := exceptBind_ok h
    obtain ⟨authors, ha, h⟩ := exceptBind_ok h
    obtain ⟨fpy, hf, h⟩ := exceptBind_ok h
    obtain ⟨ec, he, h⟩ := exceptBind_ok h
    obtain ⟨lang, hl, h⟩ := exceptBind_ok h
    obtain ⟨subj, hsu, h⟩ := exceptBind_ok h
    obtain ⟨wtr, hw, h⟩ := exceptBind_ok h
    obtain ⟨cr, hcr, h⟩ := exceptBind_ok h
    obtain ⟨ar, har, h⟩ := exceptBind_ok h
    simp only [pure, Except.pure, Except.ok.injEq, Option.some.injEq] at h
    subst h
    have hks : d.getKey "key" = .str key := by
      cases hg : d.getKey "key" <;> simp_all [Json.getStr]
    have hts : d.getKey "title" = .str title := by
      cases hg : d.getKey "title" <;> simp_all [Json.getStr]
    rcases (Bool.and_eq_true _ _).mp hc with ⟨h1, h2⟩
    exact ⟨h1, h2, hks, hts, rfl⟩
  · simp only [convertDoc, hc, if_false] at h
    simp [pure, Except.pure] at h

theorem mem_processDocs {favs : List String} {saved : List (String × BookNote)} :
    ∀ (ds : List Json) (acc : List Book) (b : Book),
      b ∈ (processDocs favs saved ds acc).1 →
      b ∈ acc ∨ ∃ d ∈ ds, convertDoc favs saved d = .ok (some b) := by
  intro ds
  induction ds with
  | nil => intro acc b h; exact .inl h
  | cons d ds ih =>
    intro acc b h
    simp only [processDocs] at h
    cases hc : convertDoc favs saved d with
    | error e => simp only [hc] at h; exact .inl h
    | ok ob =>
      simp only [hc] at h
      cases ob with
      | none =>
        rcases ih acc b h with h' | ⟨d', hd', hb⟩
        · exact .inl h'
        · exact .inr ⟨d', List.mem_cons_of_mem _ hd', hb⟩
      | some b' =>
        rcases ih (acc ++ [b']) b h with h' | ⟨d', hd', hb⟩
        · rcases List.mem_append.mp h' with h'' | h''
          · exact .inl h''
          · have hbb : b = b' := by simpa using h''
            subst hbb
            exact .inr ⟨d, List.mem_cons_self _ _, hc⟩
        · exact .inr ⟨d', List.mem_cons_of_mem _ hd', hb⟩

theorem processDocs_skip {favs : List String} {saved : List (String × BookNote)}
    (d : Json) (ds : List Json) (acc : List Book)
    (h : (d.containsKey "key" && d.containsKey "title") = false) :
    processDocs favs saved (d :: ds) acc = processDocs favs saved ds acc := by
  have hc : convertDoc favs saved d = .ok none := by
    simp [convertDoc, h, pure, Except.pure]
  simp [processDocs, hc]

/-! ## C1: failure behaviour of a fetch attempt -/

/-- C1, counterexample: a fetch attempt that fails (its second record
throws during conversion, so `data_ready` is not raised) does *not*
leave the previous result list in place — the partially built list
(the converted first record) is published instead. -/
theorem c1_counterexample :
    fetchSetsReady cPrev (some respPartial) = false ∧
    (fetchStep cPrev (some respPartial)).books =
      [{ key := "/works/OL1W", title := "Dune" }] ∧
    (fetchStep cPrev (some respPartial)).books ≠ cPrev.books := by
  refine ⟨by decide, by decide, by decide⟩

/-- C1 as amended: if the fetch fails before the body is parsed (no
response or transport exception, non-200 status, top-level JSON parse
failure) the result list is unchanged; but as soon as a 200 body
parses and has a `docs` member, the result list is replaced by the
records converted so far — on a per-record conversion exception that
is the partially built prefix, not the previous list. -/
theorem c1_amended (c : CommonObjects) (res : Option HttpResponse) :
    (softFail res = true → (fetchStep c res).books = c.books) ∧
    (∀ (r : HttpResponse) (j : Json), res = some r → r.status = 200 →
      r.body = some j → j.containsKey "docs" = true →
      (fetchStep c res).books =
        (processDocs c.favorite_books c.saved_notes (j.getKey "docs").iterElems []).1) := by
  refine ⟨fun h => fetchStep_books_of_softFail c res h, ?_⟩
  intro r j hr hs hb hd
  subst hr
  exact fetchStep_books_parsed c r j hs hb hd

/-- Witness for C1's amended theorem at concrete inputs. -/
theorem c1_witness :
    (fetchStep cPrev none).books = cPrev.books ∧
    (fetchStep cPrev (some respPartial)).books =
      (processDocs cPrev.favorite_books cPrev.saved_notes
        (bodyPartial.getKey "docs").iterElems []).1 :=
  ⟨(c1_amended cPrev none).1 rfl,
   (c1_amended cPrev (some respPartial)).2 respPartial bodyPartial rfl rfl rfl (by decide)⟩

/-! ## C8: the signal flags after a fetch attempt -/

/-- C8: whenever a poll iteration observes `start_download` set, the
flag is cleared by the end of the iteration no matter how the fetch
ends, and `data_ready` is raised exactly on the success path (it keeps
its previous value otherwise). -/
theorem c8_flags (c : CommonObjects) (res : Option HttpResponse)
    (h : c.start_download = true) :
    (pollIteration c res).start_download = false ∧
    (pollIteration c res).data_ready = (c.data_ready || fetchSetsReady c res) := by
  constructor
  · simp [pollIteration, h, fetchStep_start_download]
  · simp [pollIteration, h, fetchStep_data_ready]

/-- Witness for C8 at a concrete failing fetch. -/
theorem c8_witness :
    (pollIteration { start_download := true } none).start_download = false ∧
    (pollIteration { start_download := true } none).data_ready =
      (({ start_download := true } : CommonObjects).data_ready ||
        fetchSetsReady { start_download := true } none) :=
  c8_flags { start_download := true } none rfl

/-! ## C9: the "dune" scenario -/

set_option maxRecDepth 8000 in
/-- C9: searching "dune" by title with limit 10 and page 1 produces
the specified request path, and the one-record 200 response with
`/works/OL1W` in the favorites yields exactly one Book that is
flagged favorite, has publish year 0 and an empty author list. -/
theorem c9_scenario :
    buildPath cDune =
      "/search.json?title=dune&limit=10&page=1&fields=key,title,author_name,first_publish_year,edition_count,cover_i,language,subject,want_to_read_count,currently_reading_count,already_read_count" ∧
    (fetchStep cDune (some respDune)).books =
      [{ key := "/works/OL1W", title := "Dune", author_names := [],
         first_publish_year := 0, is_favorite := true }] := by
  refine ⟨by decide, by decide⟩

/-! ## C10: monotonicity of the data-ready flag -/

theorem toggleFavorite_flags (c : CommonObjects) (i : Nat) :
    (toggleFavorite c i).data_ready = c.data_ready := by
  unfold toggleFavorite
  cases hb : c.books[i]? with
  | none => rfl
  | some b => dsimp only; split <;> rfl

theorem removeFavorite_flags (c : CommonObjects) (display : List Book) (i : Nat) :
    (removeFavorite c display i).1.data_ready = c.data_ready := by
  unfold removeFavorite
  cases hb : display[i]? with
  | none => rfl
  | some entry => dsimp only; split <;> rfl

theorem editNote_flags (c : CommonObjects) (i : Nat) (text date : String) :
    (editNote c i text date).data_ready = c.data_ready := by
  unfold editNote
  cases hb : c.books[i]? with
  | none => rfl
  | some b => rfl

theorem openNotes_flags (c : CommonObjects) (i : Nat) :
    (openNotes c i).data_ready = c.data_ready := by
  unfold openNotes
  cases hb : c.books[i]? with
  | none => rfl
  | some b =>
    dsimp only
    cases notesFind b.notes b.key with
    | some n => rfl
    | none => cases notesFind c.saved_notes b.key with
      | some n => rfl
      | none => rfl

theorem applyMutation_data_ready (c : CommonObjects) (m : Mutation)
    (h : c.data_ready = true) : (applyMutation c m).data_ready = true := by
  cases m with
  | fetch res =>
    by_cases hs : c.start_download
    · simp [applyMutation, pollIteration, hs, fetchStep_data_ready, h]
    · simp [applyMutation, pollIteration, hs, h]
  | submit q => simpa [applyMutation, submitSearch] using h
  | chooseType t => simpa [applyMutation, setSearchType] using h
  | choosePerPage n => simpa [applyMutation, setResultsPerPage] using h
  | toggleFav i => simpa [applyMutation, toggleFavorite_flags] using h
  | removeFav display i => simpa [applyMutation, removeFavorite_flags] using h
  | noteEdit i text date => simpa [applyMutation, editNote_flags] using h
  | noteOpen i => simpa [applyMutation, openNotes_flags] using h
  | quit => simpa [applyMutation, setExit] using h

/-- C10: no operation of the program ever resets `data_ready`; once
true it stays true under every subsequent sequence of mutations. -/
theorem c10_data_ready_monotone (c : CommonObjects) (ms : List Mutation)
    (h : c.data_ready = true) : (ms.foldl applyMutation c).data_ready = true := by
  induction ms generalizing c with
  | nil => simpa using h
  | cons m ms ih =>
    simpa [List.foldl_cons] using ih _ (applyMutation_data_ready c m h)

/-- Witness for C10 on a concrete mutation sequence. -/
theorem c10_witness :
    (([Mutation.quit, Mutation.submit "x", Mutation.fetch none]).foldl
      applyMutation { data_ready := true }).data_ready = true :=
  c10_data_ready_monotone { data_ready := true } _ rfl

/-! ## C2: shape of the request path -/

theorem url_encode_go (cs : List Char) (acc : String) :
    (cs.foldl (fun result c =>
        if isUnreservedChar c then result.push c
        else (result ++ "%00").push c) acc).data
      = acc.data ++ ((cs.map encodeChar).map String.data).flatten := by
  induction cs generalizing acc with
  | nil => simp
  | cons c cs ih =>
    by_cases hc : isUnreservedChar c
    · simp only [List.foldl_cons, if_pos hc, ih, List.map_cons, List.flatten_cons,
        String.data_push, encodeChar, if_pos hc]
      simp [String.singleton]
    · simp only [List.foldl_cons, if_neg hc, ih, List.map_cons, List.flatten_cons,
        String.data_push, String.data_append, encodeChar, if_neg hc]
      simp [String.singleton]

theorem url_encode_eq_join (s : String) :
    url_encode s = String.join (s.data.map encodeChar) := by
  apply String.ext
  simp [url_encode, url_encode_go, String.data_join]

/-- C2, counterexample: the source's `url_encode` does not produce the
percent-encoded equivalent of a non-unreserved character — a space
becomes the four characters `%00` + space, not `%20`. -/
theorem c2_counterexample :
    url_encode " " = "%00 " ∧ specUrlEncode " " = "%20" ∧
    url_encode " " ≠ specUrlEncode " " := by
  refine ⟨by decide, by decide, by decide⟩

/-- C2 as amended: the request path is built from the URL "encoding"
that keeps unreserved characters and maps every other character `c` to
the three characters `%00` followed by `c` itself (not its hex code),
then the `title=`/`author=` selection by search type, then `limit=`,
`page=` and the fixed `fields=` list, in that order. -/
theorem c2_amended (c : CommonObjects) :
    url_encode c.search_query = String.join (c.search_query.data.map encodeChar) ∧
    (c.search_type = "title" →
      buildPath c = "/search.json?title=" ++ url_encode c.search_query ++ "&limit="
        ++ toString c.results_per_page ++ "&page=" ++ toString c.current_page
        ++ "&fields=" ++ fieldsList) ∧
    (c.search_type ≠ "title" →
      buildPath c = "/search.json?author=" ++ url_encode c.search_query ++ "&limit="
        ++ toString c.results_per_page ++ "&page=" ++ toString c.current_page
        ++ "&fields=" ++ fieldsList) := by
  refine ⟨url_encode_eq_join _, fun h => ?_, fun h => ?_⟩
  · have hb : (c.search_type == "title") = true := by simp [h]
    simp only [buildPath, hb, if_true]
    simp [String.append_assoc]
  · have hb : (c.search_type == "title") = false := by simp [h]
    simp only [buildPath, hb, Bool.false_eq_true, if_false]
    simp [String.append_assoc]

/-- Witness for C2's amended theorem on the "dune" parameters. -/
theorem c2_witness :
    url_encode cDune.search_query =
      String.join (cDune.search_query.data.map encodeChar) ∧
    buildPath cDune = "/search.json?title=" ++ url_encode cDune.search_query
      ++ "&limit=" ++ toString cDune.results_per_page
      ++ "&page=" ++ toString cDune.current_page
      ++ "&fields=" ++ fieldsList :=
  ⟨(c2_amended cDune).1, (c2_amended cDune).2.1 rfl⟩

/-! ## C3: the favorites synchronisation invariant -/

theorem contains_true_iff (l : List String) (a : String) :
    l.contains a = true ↔ a ∈ l := List.elem_iff

theorem contains_congr {l l' : List String} {a : String}
    (h : a ∈ l ↔ a ∈ l') : l.contains a = l'.contains a := by
  rw [Bool.eq_iff_iff, contains_true_iff, contains_true_iff]
  exact h

theorem mem_of_getElemOpt {α : Type} {l : List α} {i : Nat} {a : α}
    (h : l[i]? = some a) : a ∈ l := by
  obtain ⟨hlt, he⟩ := List.getElem?_eq_some.mp h
  exact he ▸ List.getElem_mem hlt

theorem keys_getElem_inj {bs : List Book} (h : booksKeysNodup bs)
    {i j : Nat} (hi : i < bs.length) (hj : j < bs.length)
    (hk : bs[i].key = bs[j].key) : i = j := by
  have hi' : i < (bs.map Book.key).length := by simpa using hi
  have hj' : j < (bs.map Book.key).length := by simpa using hj
  have h1 : (bs.map Book.key)[i] = (bs.map Book.key)[j] := by
    simpa [List.getElem_map] using hk
  exact (List.Nodup.getElem_inj_iff h).mp h1

theorem toggleFavorite_inv (c : CommonObjects) (i : Nat)
    (hinv : favInvariant c) (hk : booksKeysNodup c.books)
    (hf : c.favorite_books.Nodup) : favInvariant (toggleFavorite c i) := by
  unfold toggleFavorite
  cases hb : c.books[i]? with
  | none => exact hinv
  | some b =>
    obtain ⟨hi, hbe⟩ := List.getElem?_eq_some.mp hb
    dsimp only
    split
    case isTrue hcond =>
      intro x hx
      obtain ⟨j, hj, hxe⟩ := List.mem_iff_getElem.mp hx
      rw [List.length_set] at hj
      by_cases hij : j = i
      · subst hij
        have hx' : x = { b with is_favorite := !b.is_favorite } := by
          rw [← hxe, List.getElem_set_self]
        subst hx'
        have hmem : b.key ∈ c.favorite_books ++ [b.key] :=
          List.mem_append_right _ (List.mem_singleton.mpr rfl)
        simp only [hcond]
        exact ((contains_true_iff _ _).mpr hmem).symm
      · have hx' : x = c.books[j] := by
          rw [← hxe, List.getElem_set_ne (fun h => hij h.symm)]
        have hken : x.key ≠ b.key := by
          intro hkeq
          exact hij (keys_getElem_inj hk hj hi (by rw [← hx', hkeq, hbe]))
        have hxm : x ∈ c.books := hx' ▸ List.getElem_mem hj
        rw [hinv x hxm]
        refine contains_congr ?_
        constructor
        · exact fun hm => List.mem_append_left _ hm
        · intro hm
          rcases List.mem_append.mp hm with hm | hm
          · exact hm
          · exact absurd (List.mem_singleton.mp hm) hken
    case isFalse hcond =>
      intro x hx
      obtain ⟨j, hj, hxe⟩ := List.mem_iff_getElem.mp hx
      rw [List.length_set] at hj
      by_cases hij : j = i
      · subst hij
        have hx' : x = { b with is_favorite := !b.is_favorite } := by
          rw [← hxe, List.getElem_set_self]
        subst hx'
        have hnm : b.key ∉ c.favorite_books.erase b.key := by
          intro hmem
          exact absurd ((List.Nodup.mem_erase_iff hf).mp hmem).1 (by simp)
        have hcf : (c.favorite_books.erase b.key).contains b.key = false := by
          rw [Bool.eq_false_iff]
          intro hcontra
          exact hnm ((contains_true_iff _ _).mp hcontra)
        simp only [hcf]
        simpa using hcond
      · have hx' : x = c.books[j] := by
          rw [← hxe, List.getElem_set_ne (fun h => hij h.symm)]
        have hken : x.key ≠ b.key := by
          intro hkeq
          exact hij (keys_getElem_inj hk hj hi (by rw [← hx', hkeq, hbe]))
        have hxm : x ∈ c.books := hx' ▸ List.getElem_mem hj
        rw [hinv x hxm]
        exact contains_congr (List.mem_erase_of_ne hken).symm

theorem clearFlagFirst_inv (favs : List String) (k : String) (hf : favs.Nodup) :
    ∀ (l : List Book), (∀ b ∈ l, b.is_favorite = favs.contains b.key) →
      (l.map Book.key).Nodup →
      ∀ b ∈ clearFlagFirst l k, b.is_favorite = (favs.erase k).contains b.key := by
  intro l
  induction l with
  | nil => intro _ _ b hb; simp [clearFlagFirst] at hb
  | cons hd tl ih =>
    intro hinv hnd b hb
    have hndtl : (tl.map Book.key).Nodup := (List.nodup_cons.mp hnd).2
    have hhdnm : hd.key ∉ tl.map Book.key := (List.nodup_cons.mp hnd).1
    by_cases hhk : hd.key = k
    · rw [clearFlagFirst, if_pos (by simpa using hhk)] at hb
      rcases List.mem_cons.mp hb with rfl | hb
      · have hnm : k ∉ favs.erase k := fun hmem =>
          absurd ((List.Nodup.mem_erase_iff hf).mp hmem).1 (by simp)
        have : (favs.erase k).contains k = false := by
          rw [Bool.eq_false_iff]
          exact fun hc => hnm ((contains_true_iff _ _).mp hc)
        simpa [hhk] using this.symm
      · have hbk : b.key ≠ k := by
          intro hbk
          exact hhdnm (by
            rw [hhk, ← hbk]
            exact List.mem_map_of_mem Book.key hb)
        rw [hinv b (List.mem_cons_of_mem _ hb)]
        exact contains_congr (List.mem_erase_of_ne hbk).symm
    · rw [clearFlagFirst, if_neg (by simpa using hhk)] at hb
      rcases List.mem_cons.mp hb with rfl | hb
      · rw [hinv b (List.mem_cons_self _ _)]
        exact contains_congr (List.mem_erase_of_ne hhk).symm
      · exact ih (fun x hx => hinv x (List.mem_cons_of_mem _ hx)) hndtl b hb

theorem removeFavorite_inv (c : CommonObjects) (display : List Book) (i : Nat)
    (hinv : favInvariant c) (hk : booksKeysNodup c.books)
    (hf : c.favorite_books.Nodup) : favInvariant (removeFavorite c display i).1 := by
  unfold removeFavorite
  cases hd : display[i]? with
  | none => exact hinv
  | some entry =>
    dsimp only
    split
    · exact fun b hb => clearFlagFirst_inv c.favorite_books entry.key hf c.books hinv hk b hb
    · exact hinv

theorem fetchStep_books_nodocs (c : CommonObjects) (r : HttpResponse) (j : Json)
    (hs : r.status = 200) (hb : r.body = some j)
    (hd : j.containsKey "docs" = false) : (fetchStep c (some r)).books = [] := by
  simp [fetchStep, hs, hb, hd]

theorem fetchStep_inv (c : CommonObjects) (res : Option HttpResponse)
    (hinv : favInvariant c) : favInvariant (fetchStep c res) := by
  intro b hb
  rw [fetchStep_favorites]
  cases res with
  | none =>
    rw [fetchStep_books_of_softFail c none rfl] at hb
    exact hinv b hb
  | some r =>
    by_cases hs : r.status = 200
    · cases hbod : r.body with
      | none =>
        rw [fetchStep_books_of_softFail c (some r) (by simp [softFail, hbod])] at hb
        exact hinv b hb
      | some j =>
        cases hdk : j.containsKey "docs" with
        | false =>
          rw [fetchStep_books_nodocs c r j hs hbod hdk] at hb
          simp at hb
        | true =>
          rw [fetchStep_books_parsed c r j hs hbod hdk] at hb
          rcases mem_processDocs _ _ b hb with h' | ⟨d, _, hc⟩
          · simp at h'
          · exact (convertDoc_ok_some hc).2.2.2.2
    · rw [fetchStep_books_of_softFail c (some r) (by simp [softFail, hs])] at hb
      exact hinv b hb

theorem editNote_inv (c : CommonObjects) (i : Nat) (text date : String)
    (hinv : favInvariant c) : favInvariant (editNote c i text date) := by
  unfold editNote
  cases hb : c.books[i]? with
  | none => exact hinv
  | some b =>
    intro x hx
    rcases List.mem_or_eq_of_mem_set hx with hx' | rfl
    · exact hinv x hx'
    · exact hinv b (mem_of_getElemOpt hb)

theorem openNotes_inv (c : CommonObjects) (i : Nat)
    (hinv : favInvariant c) : favInvariant (openNotes c i) := by
  unfold openNotes
  cases hb : c.books[i]? with
  | none => exact hinv
  | some b =>
    dsimp only
    cases notesFind b.notes b.key with
    | some n => exact hinv
    | none =>
      cases notesFind c.saved_notes b.key with
      | none => exact hinv
      | some n =>
        intro x hx
        rcases List.mem_or_eq_of_mem_set hx with hx' | rfl
        · exact hinv x hx'
        · exact hinv b (mem_of_getElemOpt hb)

theorem fetchStep_establishes (c : CommonObjects) (res : Option HttpResponse)
    (h : fetchSetsReady c res = true) : favInvariant (fetchStep c res) := by
  intro b hb
  rw [fetchStep_favorites]
  cases res with
  | none => simp [fetchSetsReady] at h
  | some r =>
    rw [fetchSetsReady] at h
    obtain ⟨hs', hrest⟩ := (Bool.and_eq_true _ _).mp h
    have hs : r.status = 200 := by simpa using hs'
    cases hbod : r.body with
    | none => rw [hbod] at hrest; simp at hrest
    | some j =>
      cases hdk : j.containsKey "docs" with
      | false =>
        rw [fetchStep_books_nodocs c r j hs hbod hdk] at hb
        simp at hb
      | true =>
        rw [fetchStep_books_parsed c r j hs hbod hdk] at hb
        rcases mem_processDocs _ _ b hb with h' | ⟨d, _, hc⟩
        · simp at h'
        · exact (convertDoc_ok_some hc).2.2.2.2

theorem applyMutation_inv (c : CommonObjects) (m : Mutation)
    (hinv : favInvariant c) (hk : booksKeysNodup c.books)
    (hf : c.favorite_books.Nodup) : favInvariant (applyMutation c m) := by
  cases m with
  | fetch res =>
    by_cases hs : c.start_download = true
    · simp only [applyMutation, pollIteration]
      rw [if_pos hs]
      exact fetchStep_inv c res hinv
    · simp only [applyMutation, pollIteration]
      rw [if_neg hs]
      exact hinv
  | submit q => exact hinv
  | chooseType t => exact hinv
  | choosePerPage n => exact hinv
  | toggleFav i => exact toggleFavorite_inv c i hinv hk hf
  | removeFav display i => exact removeFavorite_inv c display i hinv hk hf
  | noteEdit i text date => exact editNote_inv c i text date hinv
  | noteOpen i => exact openNotes_inv c i hinv
  | quit => exact hinv

/-- C3 as amended: a successful fetch (one that reaches the
data-ready assignment) establishes the synchronisation invariant
outright, from any state — each accepted Book's flag is the membership
test against the favorites list taken at conversion time; and every
mutation preserves the invariant provided the result list carries
pairwise-distinct keys and the favorites list is duplicate-free — the
source's checkbox handler and favorites-view removal update only the
first matching entry, so the invariant is not maintained for duplicate
keys (see the counterexample). -/
theorem c3_amended (c : CommonObjects) (m : Mutation) :
    (∀ res, fetchSetsReady c res = true → favInvariant (fetchStep c res)) ∧
    (favInvariant c → booksKeysNodup c.books → c.favorite_books.Nodup →
      favInvariant (applyMutation c m)) :=
  ⟨fun res h => fetchStep_establishes c res h,
   fun hinv hk hf => applyMutation_inv c m hinv hk hf⟩

/-- C3, counterexample: the invariant is not maintained by every
mutation on every reachable state.  Starting from the initial store,
submitting a search and fetching a 200 response whose `docs` array
holds the same record twice yields two result entries with equal keys;
toggling the favorite checkbox of the first then adds the key to the
favorites list while the second entry's flag stays false. -/
theorem c3_counterexample :
    ¬ favInvariant
        (applyMutation
          (applyMutation (applyMutation initialCommon (.submit "q"))
            (.fetch (some respDup)))
          (.toggleFav 0)) := by decide

/-- Witness for C3's amended theorem: establishment by the "dune"
fetch from a store whose flags are not yet in sync, and preservation
under a toggle on a concrete store. -/
theorem c3_witness :
    favInvariant (fetchStep cDune (some respDune)) ∧
    favInvariant (applyMutation cToggle (.toggleFav 0)) :=
  ⟨(c3_amended cDune Mutation.quit).1 (some respDune) (by decide),
   (c3_amended cToggle (.toggleFav 0)).2 (by decide) (by decide) (by decide)⟩

/-! ## C4: acceptance of `docs` elements -/

/-- C4: a record enters the result list only if its `docs` element has
both a `key` and a `title` member and neither is null (they must in
fact be strings for the conversion to succeed); an element missing
`key` or `title` is silently skipped and the loop continues with the
remaining elements unchanged. -/
theorem c4_accepted_records (favs : List String) (saved : List (String × BookNote))
    (ds : List Json) :
    (∀ b ∈ (processDocs favs saved ds []).1,
      ∃ d ∈ ds, d.containsKey "key" = true ∧ d.containsKey "title" = true ∧
        d.getKey "key" ≠ Json.null ∧ d.getKey "title" ≠ Json.null) ∧
    (∀ (d : Json) (rest : List Json) (acc : List Book),
      (d.containsKey "key" && d.containsKey "title") = false →
      processDocs favs saved (d :: rest) acc = processDocs favs saved rest acc) := by
  constructor
  · intro b hb
    rcases mem_processDocs ds [] b hb with h' | ⟨d, hd, hc⟩
    · simp at h'
    · obtain ⟨h1, h2, hks, hts, _⟩ := convertDoc_ok_some hc
      exact ⟨d, hd, h1, h2, by rw [hks]; simp, by rw [hts]; simp⟩
  · intro d rest acc h
    exact processDocs_skip d rest acc h

/-- Witness for C4 on concrete `docs` lists: the record accepted from
a well-formed element, and the skip of an element with no members. -/
theorem c4_witness :
    (∃ d ∈ [dGood, Json.obj []],
      d.containsKey "key" = true ∧ d.containsKey "title" = true ∧
      d.getKey "key" ≠ Json.null ∧ d.getKey "title" ≠ Json.null) ∧
    processDocs [] [] [Json.obj [], dGood] [] = processDocs [] [] [dGood] [] :=
  ⟨(c4_accepted_records [] [] [dGood, Json.obj []]).1
      { key := "/works/OL1W", title := "Dune" } (by decide),
   (c4_accepted_records [] [] []).2 (Json.obj []) [dGood] [] (by decide)⟩

/-! ## C5: removing a favorite from the favorites view -/

theorem clearFlagFirst_clears :
    ∀ (l : List Book) (k : String), (l.map Book.key).Nodup →
      ∀ b ∈ clearFlagFirst l k, b.key = k → b.is_favorite = false := by
  intro l
  induction l with
  | nil => intro k _ b hb; simp [clearFlagFirst] at hb
  | cons hd tl ih =>
    intro k hnd b hb hbk
    have hndtl := (List.nodup_cons.mp hnd).2
    have hhdnm := (List.nodup_cons.mp hnd).1
    by_cases hhk : hd.key = k
    · rw [clearFlagFirst, if_pos (by simpa using hhk)] at hb
      rcases List.mem_cons.mp hb with rfl | hb
      · rfl
      · exact absurd (by rw [hhk, ← hbk]; exact List.mem_map_of_mem Book.key hb) hhdnm
    · rw [clearFlagFirst, if_neg (by simpa using hhk)] at hb
      rcases List.mem_cons.mp hb with rfl | hb
      · exact absurd hbk hhk
      · exact ih k hndtl b hb hbk

/-- C5: pressing Remove on a favorites-view entry whose key is in the
(duplicate-free) favorites list removes that key from the favorites
list, clears the favorite flag on the book with that key in the
(distinct-keyed) main result list when present, and erases the entry
from the local display list — all three effects of the one button
handler. -/
theorem c5_remove_favorite (c : CommonObjects) (display : List Book) (i : Nat)
    (entry : Book) (hd : display[i]? = some entry)
    (hmem : entry.key ∈ c.favorite_books)
    (hf : c.favorite_books.Nodup) (hk : booksKeysNodup c.books) :
    entry.key ∉ (removeFavorite c display i).1.favorite_books ∧
    (∀ b ∈ (removeFavorite c display i).1.books,
      b.key = entry.key → b.is_favorite = false) ∧
    (removeFavorite c display i).2 = display.eraseIdx i := by
  have hct : c.favorite_books.contains entry.key = true :=
    (contains_true_iff _ _).mpr hmem
  unfold removeFavorite
  rw [hd]
  dsimp only
  simp only [hct, if_true]
  refine ⟨?_, ?_, trivial⟩
  · intro hmem'
    exact absurd ((List.Nodup.mem_erase_iff hf).mp hmem').1 (by simp)
  · intro b hb hbk
    exact clearFlagFirst_clears c.books entry.key hk b hb hbk

/-- Witness for C5 on a one-book store. -/
theorem c5_witness :
    ({ key := "k", title := "t", is_favorite := true } : Book).key ∉
      (removeFavorite
        { books := [{ key := "k", title := "t", is_favorite := true }],
          favorite_books := ["k"] }
        [{ key := "k", title := "t", is_favorite := true }] 0).1.favorite_books ∧
    (∀ b ∈ (removeFavorite
        { books := [{ key := "k", title := "t", is_favorite := true }],
          favorite_books := ["k"] }
        [{ key := "k", title := "t", is_favorite := true }] 0).1.books,
      b.key = ({ key := "k", title := "t", is_favorite := true } : Book).key →
        b.is_favorite = false) ∧
    (removeFavorite
        { books := [{ key := "k", title := "t", is_favorite := true }],
          favorite_books := ["k"] }
        [{ key := "k", title := "t", is_favorite := true }] 0).2 =
      [({ key := "k", title := "t", is_favorite := true } : Book)].eraseIdx 0 :=
  c5_remove_favorite _ _ 0 _ (by decide) (by decide) (by decide) (by decide)

theorem getlinesGo_cons_ne (c : Char) (l acc : List Char) (hc : c ≠ '\n') :
    getlinesGo (c :: l) acc = getlinesGo l (c :: acc) := by
  rw [getlinesGo.eq_def]
  simp [hc]

theorem getlinesGo_newline (rest acc : List Char) :
    getlinesGo ('\n' :: rest) acc =
      String.mk acc.reverse :: (if rest = [] then [] else getlinesGo rest []) := by
  rw [getlinesGo.eq_def]
  cases rest <;> simp

theorem getlinesGo_append (cs : List Char) :
    ∀ (rest acc : List Char), '\n' ∉ cs →
      getlinesGo (cs ++ '\n' :: rest) acc =
        String.mk (acc.reverse ++ cs) ::
          (if rest = [] then [] else getlinesGo rest []) := by
  induction cs with
  | nil =>
    intro rest acc _
    simpa using getlinesGo_newline rest acc
  | cons c cs ih =>
    intro rest acc h
    have hc : c ≠ '\n' := fun he => h (he ▸ List.mem_cons_self _ _)
    have hcs : '\n' ∉ cs := fun hm => h (List.mem_cons_of_mem _ hm)
    rw [List.cons_append, getlinesGo_cons_ne c _ acc hc, ih rest (c :: acc) hcs]
    simp only [List.reverse_cons, List.append_assoc, List.singleton_append]

theorem getlines_eq_go (s : String) (h : s.data ≠ []) :
    getlines s = getlinesGo s.data [] := by
  unfold getlines
  cases hd : s.toList with
  | nil =>
    have hd' : s.data = [] := hd
    exact absurd hd' h
  | cons a as =>
    have hd' : s.data = a :: as := hd
    rw [hd']

theorem saveFavorites_data (k : String) (rest : List String) :
    (saveFavorites (k :: rest)).data = k.data ++ '\n' :: (saveFavorites rest).data := by
  show (k ++ "\n" ++ saveFavorites rest).data = _
  simp [String.data_append]

theorem getlines_save (favs : List String)
    (h : ∀ k ∈ favs, '\n' ∉ k.data) :
    getlines (saveFavorites favs) = favs := by
  induction favs with
  | nil => rfl
  | cons k rest ih =>
    have hk : '\n' ∉ k.data := h k (List.mem_cons_self _ _)
    have hrest : ∀ k' ∈ rest, '\n' ∉ k'.data :=
      fun k' hk' => h k' (List.mem_cons_of_mem _ hk')
    have hne : (saveFavorites (k :: rest)).data ≠ [] := by
      rw [saveFavorites_data]
      simp
    rw [getlines_eq_go _ hne, saveFavorites_data,
      getlinesGo_append k.data _ [] hk]
    have hmk : String.mk ([].reverse ++ k.data) = k := rfl
    rw [hmk]
    cases rest with
    | nil => simp [saveFavorites]
    | cons k2 rest2 =>
      have hne2 : (saveFavorites (k2 :: rest2)).data ≠ [] := by
        rw [saveFavorites_data]
        simp
      rw [if_neg hne2, ← getlines_eq_go _ hne2, ih hrest]

/-- C6, counterexample: the round-trip does not hold for every list of
key strings — an empty-string key is written as a bare newline and the
load loop drops empty lines, so `[""]` does not survive. -/
theorem c6_counterexample : loadFavorites (saveFavorites [""]) ≠ [""] := by decide

/-- C6 as amended: saving the favorites list (one key per line) and
loading the written file reproduces the identical ordered key list for
every list whose keys are non-empty and contain no newline character;
an empty key (or one with an embedded newline) is not restored
identically. -/
theorem c6_amended (favs : List String)
    (h : ∀ k ∈ favs, k ≠ "" ∧ '\n' ∉ k.data) :
    loadFavorites (saveFavorites favs) = favs := by
  have h1 : getlines (saveFavorites favs) = favs :=
    getlines_save favs (fun k hk => (h k hk).2)
  unfold loadFavorites
  rw [h1]
  exact List.filter_eq_self.mpr (fun k hk => by simpa using (h k hk).1)

/-- Witness for C6's amended theorem on two catalog keys. -/
theorem c6_witness :
    loadFavorites (saveFavorites ["/works/OL1W", "/works/OL2W"]) =
      ["/works/OL1W", "/works/OL2W"] :=
  c6_amended _ (by decide)

theorem objInsert_mem {k : String} {v : Json} :
    ∀ {fs : List (String × Json)} {x}, x ∈ objInsert k v fs → x = (k, v) ∨ x ∈ fs := by
  intro fs
  induction fs with
  | nil => intro x hx; simpa [objInsert] using hx
  | cons e rest ih =>
    intro x hx
    by_cases he : e.1 == k
    · rw [objInsert, if_pos he] at hx
      rcases List.mem_cons.mp hx with rfl | hx
      · exact .inl rfl
      · exact .inr (List.mem_cons_of_mem _ hx)
    · rw [objInsert, if_neg he] at hx
      rcases List.mem_cons.mp hx with rfl | hx
      · exact .inr (List.mem_cons_self _ _)
      · rcases ih hx with h | h
        · exact .inl h
        · exact .inr (List.mem_cons_of_mem _ h)

theorem objInsert_keys_nodup {k : String} {v : Json} :
    ∀ {fs : List (String × Json)}, ((fs.map Prod.fst).Nodup) →
      (((objInsert k v fs).map Prod.fst).Nodup) := by
  intro fs
  induction fs with
  | nil => intro _; simp [objInsert]
  | cons e rest ih =>
    intro h
    rw [List.map_cons, List.nodup_cons] at h
    by_cases he : e.1 == k
    · rw [objInsert, if_pos he]
      have hek : e.1 = k := by simpa using he
      rw [List.map_cons, List.nodup_cons]
      exact ⟨by rw [← hek]; exact h.1, h.2⟩
    · rw [objInsert, if_neg he]
      rw [List.map_cons, List.nodup_cons]
      refine ⟨?_, ih h.2⟩
      intro hmem
      rcases List.mem_map.mp hmem with ⟨x, hx, hxe⟩
      rcases objInsert_mem hx with rfl | hx'
      · exact he (by simpa using hxe.symm)
      · exact h.1 (hxe ▸ List.mem_map_of_mem Prod.fst hx')

theorem fieldsFind_objInsert_self (k : String) (v : Json) :
    ∀ (fs : List (String × Json)), fieldsFind (objInsert k v fs) k = some v := by
  intro fs
  induction fs with
  | nil => simp [objInsert, fieldsFind]
  | cons e rest ih =>
    by_cases he : e.1 == k
    · rw [objInsert, if_pos he]
      simp [fieldsFind]
    · rw [objInsert, if_neg he]
      rw [fieldsFind,
        @List.find?_cons_of_neg _ (fun f => f.1 == k) e (objInsert k v rest) he]
      exact ih

theorem fieldsFind_objInsert_ne (k k' : String) (v : Json) (hne : k' ≠ k) :
    ∀ (fs : List (String × Json)),
      fieldsFind (objInsert k v fs) k' = fieldsFind fs k' := by
  intro fs
  induction fs with
  | nil =>
    rw [objInsert, fieldsFind, fieldsFind,
      @List.find?_cons_of_neg _ (fun f => f.1 == k') (k, v) []
        (by simpa using fun h => hne h.symm)]
  | cons e rest ih =>
    by_cases he : e.1 == k
    · rw [objInsert, if_pos he]
      have h2 : ¬(e.1 == k') = true := by
        intro h2
        have he2 : e.1 = k' := by simpa using h2
        exact hne (by
          have hek : e.1 = k := by simpa using he
          rw [← he2, hek])
      rw [fieldsFind,
        @List.find?_cons_of_neg _ (fun f => f.1 == k') (k, v) rest
          (by simpa using fun h => hne h.symm),
        fieldsFind,
        @List.find?_cons_of_neg _ (fun f => f.1 == k') e rest h2]
    · rw [objInsert, if_neg he]
      by_cases h2 : (e.1 == k') = true
      · rw [fieldsFind,
          @List.find?_cons_of_pos _ (fun f => f.1 == k') e (objInsert k v rest) h2,
          fieldsFind,
          @List.find?_cons_of_pos _ (fun f => f.1 == k') e rest h2]
      · rw [fieldsFind,
          @List.find?_cons_of_neg _ (fun f => f.1 == k') e (objInsert k v rest) h2,
          fieldsFind,
          @List.find?_cons_of_neg _ (fun f => f.1 == k') e rest h2]
        exact ih

theorem saveFold_find_not_mem (notes : List (String × BookNote)) :
    ∀ (fs : List (String × Json)) (k : String), k ∉ notes.map Prod.fst →
      fieldsFind (notes.foldl (fun fs e => objInsert e.1 (noteToJson e.2) fs) fs) k
        = fieldsFind fs k := by
  induction notes with
  | nil => intro fs k _; rfl
  | cons e rest ih =>
    intro fs k h
    rw [List.map_cons] at h
    have h1 : k ≠ e.1 := fun he => h (he ▸ List.mem_cons_self _ _)
    have h2 : k ∉ rest.map Prod.fst := fun hm => h (List.mem_cons_of_mem _ hm)
    rw [List.foldl_cons, ih _ k h2, fieldsFind_objInsert_ne e.1 k _ h1]

theorem saveFold_find_mem (notes : List (String × BookNote)) :
    ∀ (fs : List (String × Json)) (k : String) (n : BookNote),
      (notes.map Prod.fst).Nodup → notesFind notes k = some n →
      fieldsFind (notes.foldl (fun fs e => objInsert e.1 (noteToJson e.2) fs) fs) k
        = some (noteToJson n) := by
  induction notes with
  | nil => intro fs k n _ hf; simp [notesFind] at hf
  | cons e rest ih =>
    intro fs k n hnd hf
    rw [List.map_cons, List.nodup_cons] at hnd
    by_cases he : (e.1 == k) = true
    · have hek : e.1 = k := by simpa using he
      have hn : n = e.2 := by
        rw [notesFind, @List.find?_cons_of_pos _ (fun x => x.1 == k) e rest he] at hf
        simpa using hf.symm
      subst hn
      have hknm : k ∉ rest.map Prod.fst := hek ▸ hnd.1
      rw [List.foldl_cons, saveFold_find_not_mem rest _ k hknm, hek,
        fieldsFind_objInsert_self]
    · rw [notesFind, @List.find?_cons_of_neg _ (fun x => x.1 == k) e rest he] at hf
      rw [List.foldl_cons]
      exact ih _ k n hnd.2 hf

theorem saveFold_keys_nodup (notes : List (String × BookNote)) :
    ∀ (fs : List (String × Json)), (fs.map Prod.fst).Nodup →
      (((notes.foldl (fun fs e => objInsert e.1 (noteToJson e.2) fs) fs).map
        Prod.fst).Nodup) := by
  induction notes with
  | nil => intro fs h; exact h
  | cons e rest ih =>
    intro fs h
    rw [List.foldl_cons]
    exact ih _ (objInsert_keys_nodup h)

theorem saveFold_values (notes : List (String × BookNote)) :
    ∀ (fs : List (String × Json)), (∀ e ∈ fs, ∃ n, e.2 = noteToJson n) →
      ∀ e ∈ notes.foldl (fun fs e => objInsert e.1 (noteToJson e.2) fs) fs,
        ∃ n, e.2 = noteToJson n := by
  induction notes with
  | nil => intro fs h; exact h
  | cons e rest ih =>
    intro fs h x hx
    rw [List.foldl_cons] at hx
    refine ih _ ?_ x hx
    intro y hy
    rcases objInsert_mem hy with rfl | hy'
    · exact ⟨e.2, rfl⟩
    · exact h y hy'

theorem decodeNoteVal_noteToJson (n : BookNote) :
    decodeNoteVal (noteToJson n) = .ok n := rfl

theorem noteToJson_inj {a b : BookNote} (h : noteToJson a = noteToJson b) :
    a = b := by
  cases a
  cases b
  simp [noteToJson] at h
  simp [h]

theorem notesFind_insert_self (m : List (String × BookNote)) (k : String)
    (v : BookNote) : notesFind (notesInsert m k v) k = some v := by
  induction m with
  | nil => simp [notesInsert, notesFind]
  | cons e rest ih =>
    by_cases he : (e.1 == k) = true
    · rw [notesInsert, if_pos he]
      simp [notesFind]
    · rw [notesInsert, if_neg he]
      rw [notesFind,
        @List.find?_cons_of_neg _ (fun x => x.1 == k) e (notesInsert rest k v) he]
      exact ih

theorem notesFind_insert_ne (m : List (String × BookNote)) (k k' : String)
    (v : BookNote) (hne : k' ≠ k) :
    notesFind (notesInsert m k v) k' = notesFind m k' := by
  induction m with
  | nil =>
    rw [notesInsert, notesFind, notesFind,
      @List.find?_cons_of_neg _ (fun x => x.1 == k') (k, v) []
        (by simpa using fun h => hne h.symm)]
  | cons e rest ih =>
    by_cases he : (e.1 == k) = true
    · rw [notesInsert, if_pos he]
      have h2 : ¬(e.1 == k') = true := by
        intro h2
        have he2 : e.1 = k' := by simpa using h2
        have hek : e.1 = k := by simpa using he
        exact hne (by rw [← he2, hek])
      rw [notesFind,
        @List.find?_cons_of_neg _ (fun x => x.1 == k') (k, v) rest
          (by simpa using fun h => hne h.symm),
        notesFind,
        @List.find?_cons_of_neg _ (fun x => x.1 == k') e rest h2]
    · rw [notesInsert, if_neg he]
      by_cases h2 : (e.1 == k') = true
      · rw [notesFind,
          @List.find?_cons_of_pos _ (fun x => x.1 == k') e (notesInsert rest k v) h2,
          notesFind,
          @List.find?_cons_of_pos _ (fun x => x.1 == k') e rest h2]
      · rw [notesFind,
          @List.find?_cons_of_neg _ (fun x => x.1 == k') e (notesInsert rest k v) h2,
          notesFind,
          @List.find?_cons_of_neg _ (fun x => x.1 == k') e rest h2]
        exact ih

theorem loadGo_find_not_mem (fields : List (String × Json)) :
    ∀ (acc : List (String × BookNote)) (k : String),
      k ∉ fields.map Prod.fst →
      (∀ e ∈ fields, ∃ n, e.2 = noteToJson n) →
      notesFind (loadNotesGo fields acc) k = notesFind acc k := by
  induction fields with
  | nil => intro acc k _ _; rfl
  | cons e rest ih =>
    intro acc k h hwf
    obtain ⟨n0, hn0⟩ := hwf e (List.mem_cons_self _ _)
    have h1 : k ≠ e.1 := fun he => h (List.map_cons _ _ _ ▸ (he ▸ List.mem_cons_self _ _))
    have h2 : k ∉ rest.map Prod.fst := fun hm => h (List.map_cons _ _ _ ▸ List.mem_cons_of_mem _ hm)
    obtain ⟨ek, ev⟩ := e
    simp only at hn0
    rw [loadNotesGo, hn0, decodeNoteVal_noteToJson]
    rw [ih _ k h2 (fun y hy => hwf y (List.mem_cons_of_mem _ hy)),
      notesFind_insert_ne _ _ _ _ h1]

theorem loadGo_find_mem (fields : List (String × Json)) :
    ∀ (acc : List (String × BookNote)) (k : String) (v : Json),
      (fields.map Prod.fst).Nodup →
      (∀ e ∈ fields, ∃ n, e.2 = noteToJson n) →
      fieldsFind fields k = some v →
      ∃ n, v = noteToJson n ∧ notesFind (loadNotesGo fields acc) k = some n := by
  induction fields with
  | nil => intro acc k v _ _ hf; simp [fieldsFind] at hf
  | cons e rest ih =>
    intro acc k v hnd hwf hf
    rw [List.map_cons, List.nodup_cons] at hnd
    obtain ⟨n0, hn0⟩ := hwf e (List.mem_cons_self _ _)
    obtain ⟨ek, ev⟩ := e
    simp only at hn0
    subst hn0
    by_cases he : (ek == k) = true
    · have hek : ek = k := by simpa using he
      have hv : v = noteToJson n0 := by
        rw [fieldsFind,
          @List.find?_cons_of_pos _ (fun f => f.1 == k) (ek, noteToJson n0) rest he] at hf
        simpa using hf.symm
      refine ⟨n0, hv, ?_⟩
      rw [loadNotesGo, decodeNoteVal_noteToJson]
      have hknm : k ∉ rest.map Prod.fst := hek ▸ hnd.1
      rw [loadGo_find_not_mem rest _ k hknm
        (fun y hy => hwf y (List.mem_cons_of_mem _ hy)), hek,
        notesFind_insert_self]
    · rw [fieldsFind,
        @List.find?_cons_of_neg _ (fun f => f.1 == k) (ek, noteToJson n0) rest he] at hf
      rw [loadNotesGo, decodeNoteVal_noteToJson]
      exact ih _ k v hnd.2 (fun y hy => hwf y (List.mem_cons_of_mem _ hy)) hf

theorem notesFind_eq_none_iff (m : List (String × BookNote)) (k : String) :
    notesFind m k = none ↔ k ∉ m.map Prod.fst := by
  rw [notesFind, Option.map_eq_none', List.find?_eq_none]
  constructor
  · intro h hmem
    rcases List.mem_map.mp hmem with ⟨e, he, hek⟩
    exact h e he (by simpa using hek)
  · intro h e he hek
    exact h (List.mem_map.mpr ⟨e, he, by simpa using hek⟩)

/-- C7: saving the notes mapping as a JSON object and loading that
object back (with no edits in between) reproduces an identical
key-to-note mapping, for every mapping (unique keys, as in the
source's `unordered_map`). -/
theorem c7_notes_roundtrip (notes : List (String × BookNote))
    (hnd : (notes.map Prod.fst).Nodup) (k : String) :
    notesFind (loadNotes (saveNotes notes)) k = notesFind notes k := by
  have hwf : ∀ e ∈ notes.foldl (fun fs e => objInsert e.1 (noteToJson e.2) fs) [],
      ∃ n, e.2 = noteToJson n := saveFold_values notes [] (by simp)
  have hknd := saveFold_keys_nodup notes [] (by simp)
  show notesFind (loadNotesGo
    (notes.foldl (fun fs e => objInsert e.1 (noteToJson e.2) fs) []) []) k = _
  cases hfind : notesFind notes k with
  | none =>
    have hk : k ∉ notes.map Prod.fst := (notesFind_eq_none_iff _ _).mp hfind
    have hfnone : fieldsFind
        (notes.foldl (fun fs e => objInsert e.1 (noteToJson e.2) fs) []) k = none := by
      rw [saveFold_find_not_mem notes [] k hk]
      rfl
    have hkf : k ∉ (notes.foldl (fun fs e => objInsert e.1 (noteToJson e.2) fs) []).map
        Prod.fst := by
      intro hmem
      rcases List.mem_map.mp hmem with ⟨e, he, hek⟩
      rw [fieldsFind, Option.map_eq_none', List.find?_eq_none] at hfnone
      exact hfnone e he (by simpa using hek)
    rw [loadGo_find_not_mem _ _ k hkf hwf]
    rfl
  | some n =>
    have hsave := saveFold_find_mem notes [] k n hnd hfind
    obtain ⟨n', hn', hload⟩ := loadGo_find_mem _ [] k (noteToJson n) hknd hwf hsave
    rw [hload, noteToJson_inj hn'.symm]

/-- Witness for C7 on a concrete two-note mapping. -/
theorem c7_witness :
    notesFind (loadNotes (saveNotes
        [("/works/OL1W", ⟨"great book", "2024-01-01"⟩),
         ("/works/OL2W", ⟨"meh", "2024-02-02"⟩)])) "/works/OL2W" =
      notesFind
        [("/works/OL1W", ⟨"great book", "2024-01-01"⟩),
         ("/works/OL2W", ⟨"meh", "2024-02-02"⟩)] "/works/OL2W" :=
  c7_notes_roundtrip _ (by decide) _
